import Mathlib

/-!
Verification of the price-to-hours browser extension
(`scripts/converter.js`, `scripts/price-detector.js`, `utils/shopping-sites.js`,
the content script, and the site classifier) against its specification.

JavaScript numbers are modelled by `JSNum` (NaN, the two infinities, and
finite values as exact rationals); fallible operations return `Option`.
DOM-dependent code is modelled over explicit element records and an explicit
tree of nodes, with the results of platform queries (selector matches,
ancestor chains, computed styles) supplied as inputs.
-/

namespace PriceToHours

/-! ## JavaScript number model -/

/-- A JavaScript number: NaN, +Infinity, -Infinity, or a finite value
(modelled as an exact rational). -/
inductive JSNum where
  | nan : JSNum
  | inf : JSNum
  | ninf : JSNum
  | fin (q : ℚ) : JSNum
deriving DecidableEq, Repr

/-- `isNaN(x)` for a number argument. -/
def jsIsNaN : JSNum → Bool
  | JSNum.nan => true
  | _ => false

/-- JavaScript `<` on numbers: false whenever either side is NaN. -/
def jsLt : JSNum → JSNum → Bool
  | JSNum.nan, _ => false
  | _, JSNum.nan => false
  | JSNum.ninf, JSNum.ninf => false
  | JSNum.ninf, _ => true
  | JSNum.inf, _ => false
  | JSNum.fin _, JSNum.inf => true
  | JSNum.fin _, JSNum.ninf => false
  | JSNum.fin a, JSNum.fin b => decide (a < b)

/-- JavaScript `<=` on numbers: false whenever either side is NaN. -/
def jsLe : JSNum → JSNum → Bool
  | JSNum.nan, _ => false
  | _, JSNum.nan => false
  | JSNum.ninf, _ => true
  | JSNum.inf, JSNum.inf => true
  | JSNum.inf, _ => false
  | JSNum.fin _, JSNum.inf => true
  | JSNum.fin _, JSNum.ninf => false
  | JSNum.fin a, JSNum.fin b => decide (a ≤ b)

/-- JavaScript division on numbers (exact on finite operands; the sign of
zero is not modelled, zero is treated as +0). -/
def jsDiv : JSNum → JSNum → JSNum
  | JSNum.nan, _ => JSNum.nan
  | _, JSNum.nan => JSNum.nan
  | JSNum.inf, JSNum.inf => JSNum.nan
  | JSNum.inf, JSNum.ninf => JSNum.nan
  | JSNum.ninf, JSNum.inf => JSNum.nan
  | JSNum.ninf, JSNum.ninf => JSNum.nan
  | JSNum.inf, JSNum.fin q => if q < 0 then JSNum.ninf else JSNum.inf
  | JSNum.ninf, JSNum.fin q => if q < 0 then JSNum.inf else JSNum.ninf
  | JSNum.fin _, JSNum.inf => JSNum.fin 0
  | JSNum.fin _, JSNum.ninf => JSNum.fin 0
  | JSNum.fin a, JSNum.fin b =>
      if b = 0 then
        if a = 0 then JSNum.nan else if 0 < a then JSNum.inf else JSNum.ninf
      else JSNum.fin (a / b)

/-! ## `scripts/converter.js` -/

/-- `calculateHours(price, hourlyWage)` from `scripts/converter.js`.
The `typeof` guards of the source are absorbed by the `JSNum` type; the
numeric guard is `isNaN(price) || isNaN(hourlyWage) || price < 0 ||
hourlyWage <= 0`. -/
def calculateHours (price hourlyWage : JSNum) : Option JSNum :=
  if jsIsNaN price || jsIsNaN hourlyWage
      || jsLt price (JSNum.fin 0) || jsLe hourlyWage (JSNum.fin 0) then
    none
  else
    some (jsDiv price hourlyWage)

/-- JavaScript `Math.round`: round to nearest, ties toward +∞. -/
def jround (x : ℚ) : ℤ := ⌊x + 1 / 2⌋

/-- `formatHours(hours)` from `scripts/converter.js`.  A `none` argument is
the `null` produced by `calculateHours`.  `roundedToHalfHour` is
`Math.round(hours * 2) / 2`, modelled by the integer `k = Math.round(hours*2)`
so that `roundedToHalfHour = k / 2`; the whole-hour branch renders `k / 2`
in decimal and the half-hour branch renders `(k-1)/2` followed by `.5`,
exactly as JavaScript stringifies the number `k / 2`. -/
def formatHours (hours : Option JSNum) : String :=
  match hours with
  | none => "N/A"
  | some h =>
    if jsIsNaN h then "N/A"
    else if jsLt h (JSNum.fin 0) then "N/A"
    else
      match h with
      | JSNum.fin q =>
        let k : ℤ := jround (q * 2)
        if (k : ℚ) / 2 < 1 / 4 then "< 0.5h"
        else if k % 2 = 0 then toString (k / 2) ++ "h"
        else toString ((k - 1) / 2) ++ ".5h"
      | JSNum.inf => "Infinityh"
      | JSNum.ninf => "N/A"
      | JSNum.nan => "N/A"

/-- The tier-settings object `{ green, yellow, red }` (the `type` field is
never read by `getTierColor` and is omitted). -/
structure TierSettings where
  green : ℚ
  yellow : ℚ
  red : ℚ
deriving DecidableEq, Repr

/-- `getTierColor(value, tierSettings)` from `scripts/converter.js`.
A `none` settings argument is a missing/null `tierSettings`; the `typeof`
and `isNaN` guards on `value` are the first branch. -/
def getTierColor (value : JSNum) (tierSettings : Option TierSettings) : String :=
  match tierSettings with
  | none => "yellow"
  | some ts =>
    if jsIsNaN value then "yellow"
    else if ts.green = 0 && value == JSNum.fin 0 then "green"
    else if jsLt value (JSNum.fin ts.green) then "green"
    else if jsLe (JSNum.fin ts.green) value && jsLe value (JSNum.fin ts.yellow) then "yellow"
    else if jsLt (JSNum.fin ts.yellow) value then "red"
    else "yellow"

/-! ## String utilities shared by the detection code

These model the JavaScript string and regular-expression primitives that
`scripts/price-detector.js` uses, specialised to the fixed patterns that
occur in the source. -/

/-- ASCII lower-casing of one character (the page text handled by the
detector is ASCII apart from currency symbols, which are unaffected). -/
def charLower (c : Char) : Char :=
  if 'A' ≤ c && c ≤ 'Z' then Char.ofNat (c.toNat + 32) else c

/-- JavaScript `toLowerCase()` on the strings the detector sees. -/
def lowerStr (s : String) : String :=
  String.mk (s.toList.map charLower)

/-- `pat` occurs at the head of `cs` (pattern first argument). -/
def leadEq : List Char → List Char → Bool
  | [], _ => true
  | _ :: _, [] => false
  | p :: ps, c :: cs => p == c && leadEq ps cs

/-- Helper for `strIncludes`: `pat` occurs somewhere in the list. -/
def includesAux (pat : List Char) : List Char → Bool
  | [] => leadEq pat []
  | c :: rest => leadEq pat (c :: rest) || includesAux pat rest

/-- JavaScript `String.prototype.includes(pat)` / substring containment. -/
def strIncludes (s pat : String) : Bool :=
  includesAux pat.toList s.toList

/-- JavaScript `\s` (whitespace class), restricted to the code points that
occur in page text: space, tab, newline, carriage return, vertical tab,
form feed, and no-break space. -/
def isJsSpace (c : Char) : Bool :=
  c == ' ' || c == '\t' || c == '\n' || c == '\r'
    || c.toNat == 11 || c.toNat == 12 || c.toNat == 160

/-- The currency class `[$€£¥]` used throughout `price-detector.js`. -/
def isCurrencyChar (c : Char) : Bool :=
  c == '$' || c == '€' || c == '£' || c == '¥'

/-- JavaScript `trim()`: strip leading and trailing whitespace. -/
def trimJs (s : String) : String :=
  String.mk (((s.toList.dropWhile isJsSpace).reverse.dropWhile isJsSpace).reverse)

/-- Split a character list at every occurrence of `sep` (empty segments
kept), as `String.prototype.split(sep)` does. -/
def splitChar (sep : Char) : List Char → List (List Char)
  | [] => [[]]
  | c :: rest =>
    match splitChar sep rest with
    | [] => [[c]]
    | g :: gs => if c == sep then [] :: g :: gs else (c :: g) :: gs

/-- `element.classList.contains(token)`: the class attribute split on
spaces contains the token. -/
def hasClassToken (className token : String) : Bool :=
  (splitChar ' ' className.toList).contains token.toList

/-! ## `isTimeValue` (`scripts/price-detector.js`) -/

/-- One step of the first four `TIME_PATTERNS`.  Each of those patterns has
the shape `\d+\s*(X|Xxx|…)…` where every alternative begins with the same
letter `X` and everything after the leading alternative group is optional,
so the pattern matches the text iff some digit is followed (after optional
whitespace) by that letter in either case.  `letters` is the letter in both
cases. -/
def digitThenLetter (letters : List Char) : List Char → Bool
  | [] => false
  | c :: rest =>
    (c.isDigit &&
      (match rest.dropWhile isJsSpace with
       | [] => false
       | d :: _ => letters.contains d))
    || digitThenLetter letters rest

/-- `/^\d+\s*[hms]/` applied to the trimmed text (case-sensitive: the
source pattern carries no `i` flag). -/
def startsDigitThenHms (s : String) : Bool :=
  match s.toList with
  | [] => false
  | c :: rest =>
    c.isDigit &&
      (match (rest.dropWhile Char.isDigit).dropWhile isJsSpace with
       | d :: _ => d == 'h' || d == 'm' || d == 's'
       | [] => false)

/-- `TIME_KEYWORDS` from `scripts/price-detector.js`. -/
def TIME_KEYWORDS : List String :=
  ["remaining", "left", "until", "expires", "ends", "deal", "duration",
   "countdown", "timer"]

/-- `isTimeValue(text)` from `scripts/price-detector.js`.  The five
`TIME_PATTERNS` are, in order: the hour pattern, the minute pattern, the
seconds pattern, the days pattern (each reduced as in `digitThenLetter`),
and the keyword alternation `/(remaining|left|until|expires?|ends?)/i`,
which holds iff the lower-cased text contains one of `remaining`, `left`,
`until`, `expire`, `end`. -/
def isTimeValue (text : String) : Bool :=
  if text == "" then false
  else
    let lowerText := lowerStr text
    if digitThenLetter ['h', 'H'] text.toList then true
    else if digitThenLetter ['m', 'M'] text.toList then true
    else if digitThenLetter ['s', 'S'] text.toList then true
    else if digitThenLetter ['d', 'D'] text.toList then true
    else if ["remaining", "left", "until", "expire", "end"].any
        (fun w => strIncludes lowerText w) then true
    else if TIME_KEYWORDS.any (fun keyword => strIncludes lowerText keyword) then true
    else if startsDigitThenHms (trimJs text) && !(text.toList.any isCurrencyChar) then true
    else false

/-! ## DOM element model for the detector -/

/-- A DOM element as observed by `isPriceElement`/`parsePrice`: its own
attributes plus the outcome of the three `closest` queries the code makes
against its ancestor chain.  `eid` models JavaScript object identity. -/
structure Elem where
  eid : Nat
  className : String
  id : String
  textContent : String
  attrs : List (String × String)
  /-- `element.closest(".price-hours-badge") !== null` -/
  closestBadge : Bool
  /-- `element.closest("nav, aside, [role='navigation'], …") !== null` -/
  inSidebar : Bool
  /-- `element.closest('[class*="price"]') !== null` -/
  closestPriceClass : Bool
deriving DecidableEq, Repr

/-- `element.getAttribute(name)`. -/
def getAttr (e : Elem) (name : String) : Option String :=
  (e.attrs.find? (fun p => p.1 == name)).map Prod.snd

/-- `element.hasAttribute(name)`. -/
def hasAttr (e : Elem) (name : String) : Bool :=
  (getAttr e name).isSome

/-- The `excludePatterns` array inside `isPriceElement`. -/
def excludePatterns : List String :=
  ["time", "timer", "countdown", "duration", "deal", "remaining",
   "expires", "ends"]

/-- `isPriceElement(element)` from `scripts/price-detector.js`.  The
`for`-loop over `excludePatterns` returns `false` as soon as one pattern
occurs in the class, id, or text without the price override, which is the
`List.any` below.  `hasPriceIndicator` is computed unconditionally here; the
source computes it only inside the sidebar branch, where alone it is used. -/
def isPriceElement (element : Elem) : Bool :=
  if hasClassToken element.className "price-hours-badge" || element.closestBadge then false
  else
    let className := lowerStr element.className
    if strIncludes className "offscreen" || strIncludes className "sr-only"
        || strIncludes className "visually-hidden"
        || getAttr element "aria-hidden" == some "true" then false
    else if strIncludes className "pricetopay" then false
    else
      let isInSidebar := element.inSidebar
      let id := lowerStr element.id
      let text := lowerStr element.textContent
      if excludePatterns.any (fun pat =>
            (strIncludes className pat || strIncludes id pat || strIncludes text pat)
            && !(strIncludes className "price" || strIncludes id "price"
                  || hasAttr element "data-price")) then false
      else if isInSidebar && isTimeValue text then false
      else
        let hasPriceIndicator :=
          strIncludes className "price" || strIncludes id "price"
            || hasAttr element "data-price" || element.closestPriceClass
            || text.toList.any isCurrencyChar
        if isInSidebar && !hasPriceIndicator && isTimeValue text then false
        else true

/-! ## `parsePrice` (`scripts/price-detector.js`) -/

/-- `/price|Price|cost|amount|value/i` tested against a class or id:
case-insensitive containment of one of the four words. -/
def matchesPriceCtx (s : String) : Bool :=
  ["price", "cost", "amount", "value"].any (fun w => strIncludes (lowerStr s) w)

/-- `/price|Price/i` tested against a class or id. -/
def matchesPriceOnly (s : String) : Bool :=
  strIncludes (lowerStr s) "price"

/-- `priceText.trim().replace(/[\$€£¥,\s]/g, "")`: drop every currency
symbol, comma, and whitespace character. -/
def cleanedPrice (s : String) : String :=
  String.mk ((trimJs s).toList.filter
    (fun c => !(isCurrencyChar c || c == ',' || isJsSpace c)))

/-- `cleaned.replace(/\.(?=\d{3})/g, "")`: remove every `.` that is
followed by at least three digits (the lookahead does not consume them, so
scanning resumes at the digits). -/
def stripThousandsDots : List Char → List Char
  | [] => []
  | '.' :: rest =>
    (match rest with
     | a :: b :: c :: _ =>
       if a.isDigit && b.isDigit && c.isDigit then stripThousandsDots rest
       else '.' :: stripThousandsDots rest
     | _ => '.' :: stripThousandsDots rest)
  | c :: rest => c :: stripThousandsDots rest

/-- `.replace(",", ".")` with a string pattern: only the first comma is
replaced. -/
def replaceFirstComma : List Char → List Char
  | [] => []
  | ',' :: rest => '.' :: rest
  | c :: rest => c :: replaceFirstComma rest

/-- Numeric value of a digit string. -/
def digitsVal (ds : List Char) : ℕ :=
  ds.foldl (fun n c => 10 * n + (c.toNat - 48)) 0

/-- JavaScript `parseFloat`: skip leading whitespace, optional sign,
`Infinity` or a decimal mantissa with optional exponent; trailing garbage is
ignored; no parsable mantissa gives NaN.  Finite values are exact here
(float rounding is not modelled). -/
def jsParseFloat (s : String) : JSNum :=
  let cs := s.toList.dropWhile isJsSpace
  let signed : ℚ × List Char :=
    match cs with
    | '+' :: r => (1, r)
    | '-' :: r => (-1, r)
    | _ => (1, cs)
  let sign := signed.1
  let cs1 := signed.2
  if leadEq "Infinity".toList cs1 then
    if sign < 0 then JSNum.ninf else JSNum.inf
  else
    let ipr := (cs1.takeWhile Char.isDigit, cs1.dropWhile Char.isDigit)
    let fpr :=
      match ipr.2 with
      | '.' :: t => (t.takeWhile Char.isDigit, t.dropWhile Char.isDigit)
      | _ => (([] : List Char), ipr.2)
    if ipr.1.isEmpty && fpr.1.isEmpty then JSNum.nan
    else
      let mant : ℚ := (digitsVal ipr.1 : ℚ) + (digitsVal fpr.1 : ℚ) / (10 : ℚ) ^ fpr.1.length
      let ex : ℤ :=
        match fpr.2 with
        | e :: t =>
          if e == 'e' || e == 'E' then
            let esigned : ℤ × List Char :=
              match t with
              | '+' :: r => (1, r)
              | '-' :: r => (-1, r)
              | _ => (1, t)
            let eds := esigned.2.takeWhile Char.isDigit
            if eds.isEmpty then 0 else esigned.1 * (digitsVal eds : ℤ)
          else 0
        | [] => 0
      JSNum.fin (sign * mant * (10 : ℚ) ^ ex)

/-- `parsePrice(priceText, element)` from `scripts/price-detector.js`.
`none` for the element is a missing/`null` context argument; the returned
`none` is the source's `null`. -/
def parsePrice (priceText : String) (element : Option Elem) : Option ℚ :=
  if priceText == "" then none
  else if isTimeValue priceText then none
  else if (match element with | some e => !isPriceElement e | none => false) then none
  else
    let hasCurrency := priceText.toList.any isCurrencyChar
    let rejectBare :=
      !hasCurrency &&
        (match element with
         | some e =>
           !matchesPriceCtx e.className && !matchesPriceCtx e.id
             && !hasAttr e "data-price"
         | none => false)
    if rejectBare then none
    else
      let normalized :=
        String.mk (replaceFirstComma (stripThousandsDots (cleanedPrice priceText).toList))
      match jsParseFloat normalized with
      | JSNum.nan => none
      | JSNum.inf => none
      | JSNum.ninf => none
      | JSNum.fin price =>
        if price < 0 || price > 10000000 then none
        else if (price < 1 / 100 || price > 100000) &&
            (!hasCurrency &&
              (match element with
               | none => true
               | some e => !matchesPriceOnly e.className && !matchesPriceOnly e.id)) then
          none
        else some price

/-! ## Site classifier (`utils/shopping-sites.js`) -/

/-- Model of the platform `new URL(url)` constructor, restricted to the
hierarchical `scheme://authority/path` addresses the classifier receives:
a scheme (a letter followed by letters, digits, `+`, `-`, `.`) then `://`,
an authority whose host (after any `user@` and before any `:port`) must be
non-empty and is lower-cased, and a pathname (up to `?` or `#`, defaulting
to `/`).  Any other input throws, modelled as `none`. -/
def jsParseURL (s : String) : Option (String × String) :=
  let cs := s.toList
  let isSchemeChar : Char → Bool :=
    fun c => c.isAlpha || c.isDigit || c == '+' || c == '-' || c == '.'
  let scheme := cs.takeWhile isSchemeChar
  match scheme, cs.dropWhile isSchemeChar with
  | c :: _, ':' :: '/' :: '/' :: r =>
    if c.isAlpha then
      let isAuthEnd : Char → Bool := fun c => c == '/' || c == '?' || c == '#'
      let authority := r.takeWhile (fun c => !isAuthEnd c)
      let after := r.dropWhile (fun c => !isAuthEnd c)
      let hostport := (splitChar '@' authority).getLastD []
      let host := hostport.takeWhile (fun c => !(c == ':'))
      if host.isEmpty then none
      else
        let path := after.takeWhile (fun c => !(c == '?' || c == '#'))
        some (String.mk (host.map charLower),
              if path.isEmpty then "/" else String.mk path)
    else none
  | _, _ => none

/-- `SHOPPING_SITES` from `utils/shopping-sites.js`. -/
def SHOPPING_SITES : List String :=
  ["amazon.com", "amazon.co.uk", "amazon.ca", "amazon.de", "ebay.com",
   "etsy.com", "walmart.com", "target.com", "bestbuy.com", "newegg.com",
   "shopify.com", "shop.com", "zappos.com", "overstock.com", "wayfair.com",
   "homedepot.com", "lowes.com", "macys.com", "nordstrom.com", "sephora.com",
   "ulta.com", "asos.com", "zara.com", "h&m.com", "gap.com", "oldnavy.com",
   "bananarepublic.com", "athleta.com", "adidas.com", "nike.com", "puma.com",
   "underarmour.com"]

/-- `SHOPPING_KEYWORDS` from `utils/shopping-sites.js`. -/
def SHOPPING_KEYWORDS : List String :=
  ["shop", "store", "buy", "cart", "checkout", "product", "purchase",
   "merchandise"]

/-- `isShoppingSite(url)` from `utils/shopping-sites.js`: parse the URL
(`try`/`catch` returning `false` on failure), lower-case hostname and
pathname, then test the allow-list against the hostname and the keyword
list against hostname or pathname, by substring containment. -/
def isShoppingSite (url : String) : Bool :=
  match jsParseURL url with
  | none => false
  | some hp =>
    let hostname := lowerStr hp.1
    let pathname := lowerStr hp.2
    SHOPPING_SITES.any (fun site => strIncludes hostname site)
      || SHOPPING_KEYWORDS.any (fun keyword =>
           strIncludes hostname keyword || strIncludes pathname keyword)

/-! ## Concrete test elements and the separator-rule comparison for C4 -/

/-- A test element whose class, id, and attributes carry no price marker. -/
def elemNoPriceClass : Elem :=
  ⟨1, "item-name", "", "99", [], false, false, false⟩

/-- A test element with class `price` (its `closest('[class*="price"]')`
finds the element itself). -/
def elemPriceClass : Elem :=
  ⟨2, "price", "", "99", [], false, false, true⟩

/-- The specification's wording of the separator rule: remove a `.` only
when it is followed by *exactly* three digits (three digits not followed by
a fourth).  Stated from the spec for comparison with the source's
`stripThousandsDots`, whose lookahead `(?=\d{3})` accepts three or more. -/
def stripThousandsDotsExact : List Char → List Char
  | [] => []
  | '.' :: rest =>
    (match rest with
     | a :: b :: c :: t =>
       if a.isDigit && b.isDigit && c.isDigit
           && !(match t with | d :: _ => d.isDigit | [] => false) then
         stripThousandsDotsExact rest
       else '.' :: stripThousandsDotsExact rest
     | _ => '.' :: stripThousandsDotsExact rest)
  | c :: rest => c :: stripThousandsDotsExact rest

/-! ## `detectPrices` (`scripts/price-detector.js`)

The live document is abstracted by its observable behaviour: the result
list of each `querySelectorAll` call of method 1 (one element list per
selector in `PRICE_SELECTORS`, document order), and for method 2 the text
nodes the tree walker visits, each with the ancestor chain of its parent
element (nearest first, `document.body` excluded — the `while` loop stops
there). -/

/-- A detected price candidate `{element, price, originalText}`. -/
structure Cand where
  element : Elem
  price : ℚ
  originalText : String
deriving DecidableEq, Repr

/-- The separator class `[.,]` of `PRICE_PATTERN`. -/
def isSepChar (c : Char) : Bool := c == '.' || c == ','

/-- `\d{1,3}` (greedy): up to three leading digits. -/
def takeUpTo3Digits : List Char → List Char × List Char
  | [] => ([], [])
  | a :: rest =>
    if a.isDigit then
      match rest with
      | [] => ([a], [])
      | b :: rest2 =>
        if b.isDigit then
          match rest2 with
          | [] => ([a, b], [])
          | c :: rest3 =>
            if c.isDigit then ([a, b, c], rest3) else ([a, b], rest2)
        else ([a], rest)
    else ([], a :: rest)

/-- `(?:[.,]\d{3})*` (greedy): thousands groups. -/
def grabThousandGroups : List Char → List Char × List Char
  | s :: a :: b :: c :: r =>
    if isSepChar s && a.isDigit && b.isDigit && c.isDigit then
      let gr := grabThousandGroups r
      (s :: a :: b :: c :: gr.1, gr.2)
    else ([], s :: a :: b :: c :: r)
  | cs => ([], cs)

/-- `(?:[.,]\d{2})?` (greedy): the optional decimal part. -/
def grabDecimal : List Char → List Char × List Char
  | s :: a :: b :: r =>
    if isSepChar s && a.isDigit && b.isDigit then ([s, a, b], r)
    else ([], s :: a :: b :: r)
  | cs => ([], cs)

/-- One attempt of `PRICE_PATTERN`
(`/[$€£¥]\s*(\d{1,3}(?:[.,]\d{3})*(?:[.,]\d{2})?)/`) at the head of the
list: currency symbol, optional whitespace, then the numeral.  The groups
are matched greedily left to right; no backtracking arises because each
later group is optional.  Returns the matched characters and the rest. -/
def matchPriceAt : List Char → Option (List Char × List Char)
  | [] => none
  | c :: rest =>
    if isCurrencyChar c then
      let ws := rest.takeWhile isJsSpace
      let r1 := rest.dropWhile isJsSpace
      let dsr := takeUpTo3Digits r1
      if dsr.1.isEmpty then none
      else
        let grr := grabThousandGroups dsr.2
        let der := grabDecimal grr.2
        some (c :: (ws ++ dsr.1 ++ grr.1 ++ der.1), der.2)
    else none

/-- `text.match(PRICE_PATTERN)` with the `g` flag: scan left to right,
recording each match and resuming after it.  The fuel argument bounds the
number of loop iterations; every iteration consumes at least one character,
so `cs.length` fuel is never exhausted. -/
def matchAllPricesAux : Nat → List Char → List String
  | 0, _ => []
  | _, [] => []
  | fuel + 1, c :: rest =>
    match matchPriceAt (c :: rest) with
    | some mr => String.mk mr.1 :: matchAllPricesAux fuel mr.2
    | none => matchAllPricesAux fuel rest

/-- All matches of `PRICE_PATTERN` in a text node. -/
def matchAllPrices (s : String) : List String :=
  matchAllPricesAux s.toList.length s.toList

/-- The body of the method-1 `forEach` in `detectPrices`: given the set of
already-found element identities, either produce the element's candidate or
skip it.  The guard sequence is the source's: found-set, own-badge,
offscreen/hidden, `priceToPay`, `isPriceElement`, `isTimeValue`, then
`parsePrice` with the `price !== null && price > 0` gate.  The text is
`element.textContent` (the `|| element.innerText || ""` fallbacks apply
only when `textContent` is empty and are not modelled separately). -/
def selectorCandidate (found : List Nat) (element : Elem) : Option Cand :=
  if found.contains element.eid then none
  else if hasClassToken element.className "price-hours-badge" || element.closestBadge then none
  else
    let className := lowerStr element.className
    if strIncludes className "offscreen" || strIncludes className "sr-only"
        || strIncludes className "visually-hidden"
        || getAttr element "aria-hidden" == some "true" then none
    else if strIncludes className "pricetopay" then none
    else if !isPriceElement element then none
    else
      let text := element.textContent
      if isTimeValue text then none
      else
        match parsePrice text (some element) with
        | some price =>
          if 0 < price then some ⟨element, price, trimJs text⟩ else none
        | none => none

/-- Fold one method-1 element into the `(foundElements, prices)` state. -/
def selectorStep (st : List Nat × List Cand) (element : Elem) : List Nat × List Cand :=
  match selectorCandidate st.1 element with
  | some c => (element.eid :: st.1, st.2 ++ [c])
  | none => st

/-- Method 1: iterate the selector result lists in order (the `try`/`catch`
around an invalid selector only skips it and is absorbed by the input
abstraction). -/
def scanSelectors (selectorResults : List (List Elem))
    (st : List Nat × List Cand) : List Nat × List Cand :=
  selectorResults.foldl (fun st elems => elems.foldl selectorStep st) st

/-- The method-2 `while` loop: walk the ancestor chain of a text node for
one regex match `mtext`, skipping found or non-price ancestors, stopping at
the first ancestor whose parse yields a positive price. -/
def textNodeClimb (mtext : String) (chain : List Elem)
    (st : List Nat × List Cand) : List Nat × List Cand :=
  match chain with
  | [] => st
  | parent :: rest =>
    if st.1.contains parent.eid || !isPriceElement parent then
      textNodeClimb mtext rest st
    else
      match parsePrice mtext (some parent) with
      | some price =>
        if 0 < price then (parent.eid :: st.1, st.2 ++ [⟨parent, price, trimJs mtext⟩])
        else textNodeClimb mtext rest st
      | none => textNodeClimb mtext rest st

/-- Fold one text node (text, ancestor chain) into the state: skip time
values, otherwise process each `PRICE_PATTERN` match. -/
def textNodeStep (st : List Nat × List Cand) (tn : String × List Elem) :
    List Nat × List Cand :=
  if isTimeValue tn.1 then st
  else (matchAllPrices tn.1).foldl (fun st m => textNodeClimb m tn.2 st) st

/-- Method 2 over all walked text nodes. -/
def scanTextNodes (textNodes : List (String × List Elem))
    (st : List Nat × List Cand) : List Nat × List Cand :=
  textNodes.foldl textNodeStep st

/-- Insertion into a JavaScript `Map` (as association list in insertion
order): an existing key keeps its position and gets the new value,
otherwise the pair is appended. -/
def mapInsert {α : Type} : List (Nat × α) → Nat → α → List (Nat × α)
  | [], k, v => [(k, v)]
  | (k2, v2) :: t, k, v =>
    if k2 == k then (k, v) :: t else (k2, v2) :: mapInsert t k v

/-- `new Map(prices.map(p => [p.element, p]))` followed by
`Array.from(map.values())`: last-write-wins deduplication keyed by element
identity. -/
def jsMapDedup {α : Type} (ps : List (Nat × α)) : List (Nat × α) :=
  ps.foldl (fun acc p => mapInsert acc p.1 p.2) []

/-- `detectPrices()` from `scripts/price-detector.js` over the abstracted
document: method 1 (selector scan), method 2 (text-node regex scan with
ancestor climbing), then `Map`-based deduplication by element. -/
def detectPrices (selectorResults : List (List Elem))
    (textNodes : List (String × List Elem)) : List Cand :=
  let st1 := scanSelectors selectorResults ([], [])
  let st2 := scanTextNodes textNodes st1
  (jsMapDedup (st2.2.map (fun p => (p.element.eid, p)))).map Prod.snd

/-- A concrete price element used to witness the detector theorems. -/
def elemDollarFive : Elem := ⟨3, "price", "", "$5", [], false, false, true⟩

/-! ## Replace mode (content script)

`storeOriginalPrice`, `replacePriceWithHours`, and `restoreOriginalPrice`
act on one price element at a time.  The element is modelled by its markup
(`innerHTML`, with `textContent` derived from it), the five inline style
properties the code touches, and the `title` and `data-price-replaced`
attributes.  The computed display value read by `getComputedStyle` is an
input. -/

/-- Tag stripping for deriving `textContent` from markup (the boolean flag
is "currently inside a tag"). -/
def stripTags : List Char → Bool → List Char
  | [], _ => []
  | '<' :: r, _ => stripTags r true
  | '>' :: r, true => stripTags r false
  | _ :: r, true => stripTags r true
  | c :: r, false => c :: stripTags r false

/-- Undo the three basic entity escapes in text derived from markup. -/
def unescapeEntities : List Char → List Char
  | '&' :: 'a' :: 'm' :: 'p' :: ';' :: r => '&' :: unescapeEntities r
  | '&' :: 'l' :: 't' :: ';' :: r => '<' :: unescapeEntities r
  | '&' :: 'g' :: 't' :: ';' :: r => '>' :: unescapeEntities r
  | c :: r => c :: unescapeEntities r
  | [] => []

/-- `textContent` of a markup string: strip tags, unescape entities. -/
def textOfHtml (h : String) : String :=
  String.mk (unescapeEntities (stripTags h.toList false))

/-- Escaping applied when a text assignment is reflected into `innerHTML`. -/
def escapeHtml (s : String) : String :=
  String.mk (s.toList.foldr (fun c acc =>
    if c == '&' then '&' :: 'a' :: 'm' :: 'p' :: ';' :: acc
    else if c == '<' then '&' :: 'l' :: 't' :: ';' :: acc
    else if c == '>' then '&' :: 'g' :: 't' :: ';' :: acc
    else c :: acc) [])

/-- A price element as replace mode observes and mutates it. -/
structure PriceEl where
  innerHTML : String
  /-- `element.style.backgroundColor` -/
  bg : String
  /-- `element.style.padding` -/
  pad : String
  /-- `element.style.borderRadius` -/
  brad : String
  /-- `element.style.display` -/
  disp : String
  /-- `element.style.marginLeft` -/
  ml : String
  title : Option String
  /-- the `data-price-replaced` attribute -/
  replacedAttr : Bool
deriving DecidableEq, Repr

/-- `element.textContent`, derived from the markup. -/
def PriceEl.textContent (e : PriceEl) : String := textOfHtml e.innerHTML

/-- Assignment `element.textContent = s`: the children are replaced by one
text node, so the markup becomes the escaped text. -/
def setTextContent (e : PriceEl) (s : String) : PriceEl :=
  { e with innerHTML := escapeHtml s }

/-- Assignment `element.innerHTML = h`. -/
def setInnerHTML (e : PriceEl) (h : String) : PriceEl :=
  { e with innerHTML := h }

/-- JavaScript `||` on strings (the empty string is falsy). -/
def jsOrS (a b : String) : String := if a == "" then b else a

/-- The snapshot stored in `replacedPrices`. -/
structure OriginalData where
  textContent : String
  innerHTML : String
  backgroundColor : String
  padding : String
  borderRadius : String
  display : String
deriving DecidableEq, Repr

/-- `storeOriginalPrice(element)`: first-time-only snapshot of text, markup
and the four inline style properties (`display` falls back to the computed
display). -/
def storeOriginalPrice (m : List (Nat × OriginalData)) (eid : Nat) (e : PriceEl)
    (computedDisplay : String) : List (Nat × OriginalData) :=
  if (m.find? (fun p => p.1 == eid)).isSome then m
  else
    m ++ [(eid, ⟨e.textContent, e.innerHTML, jsOrS e.bg "", jsOrS e.pad "",
      jsOrS e.brad "", jsOrS (jsOrS e.disp computedDisplay) ""⟩)]

/-- `replacePriceWithHours(element, hoursFormatted)`: snapshot, overwrite
the text with the formatted hours, apply the fixed visual treatment
(including `marginLeft = "0"`), and mark the element replaced with a
tooltip disclosing the original price. -/
def replacePriceWithHours (e : PriceEl) (m : List (Nat × OriginalData)) (eid : Nat)
    (hoursFormatted : String) (computedDisplay : String) :
    PriceEl × List (Nat × OriginalData) :=
  let m2 := storeOriginalPrice m eid e computedDisplay
  let original := ((m2.find? (fun p => p.1 == eid)).map Prod.snd).getD
    ⟨"", "", "", "", "", ""⟩
  let e2 := setTextContent e hoursFormatted
  let e3 : PriceEl :=
    { e2 with
      bg := "#fef3c7", pad := "2px 6px", brad := "4px",
      disp := "inline-block", ml := "0",
      replacedAttr := true,
      title := some ("Original price: " ++ original.textContent ++
        " | Work hours: " ++ hoursFormatted) }
  (e3, m2)

/-- `restoreOriginalPrice(element)`: restore text then markup, the four
snapshotted style properties, and drop the replaced marker and tooltip
(`marginLeft` is not touched). -/
def restoreOriginalPrice (e : PriceEl) (m : List (Nat × OriginalData)) (eid : Nat) :
    PriceEl :=
  match (m.find? (fun p => p.1 == eid)).map Prod.snd with
  | none => e
  | some original =>
    let e1 := setTextContent e original.textContent
    let e2 := setInnerHTML e1 original.innerHTML
    { e2 with
      bg := original.backgroundColor,
      pad := original.padding,
      brad := original.borderRadius,
      disp := jsOrS original.display "",
      replacedAttr := false,
      title := none }

/-- A price element before replacement: text `$40`, an inline
`margin-left: 5px`, no inline display (computed display `inline`), no
tooltip. -/
def replacedElemExample : PriceEl := ⟨"$40", "", "", "", "", "5px", none, false⟩

/-! ## Side-by-side badge injection (content script)

The document body's subtree is a forest of nodes: ordinary elements (with
identity, class attribute, id attribute, `aria-hidden` flag, the
`data-hours-formatted` attribute, and ordered children) and injected badge
elements (identity and text).  Candidates — the `(element, formatted
hours)` pairs `processPage` derives from `detectPrices` and the converter —
are inputs.  Badge identities come from a fresh counter in the state. -/

mutual
/-- A node of the document body's subtree (mutually inductive with the
sibling list so that all tree operations are structurally recursive). -/
inductive Dom where
  | elem (eid : Nat) (cls : String) (domId : String) (aria : Bool)
      (dhf : Option String) (children : DomList) : Dom
  | badge (bid : Nat) (content : String) : Dom
inductive DomList where
  | nil : DomList
  | cons (d : Dom) (ds : DomList) : DomList
end

mutual
/-- Number of badge nodes in a subtree. -/
def badgeCount : Dom → Nat
  | Dom.elem _ _ _ _ _ children => badgeCountList children
  | Dom.badge _ _ => 1
/-- Number of badge nodes in a forest. -/
def badgeCountList : DomList → Nat
  | DomList.nil => 0
  | DomList.cons d ds => badgeCount d + badgeCountList ds
end

mutual
/-- `document.body.contains` for an element identity. -/
def elemInDom : Dom → Nat → Bool
  | Dom.elem e _ _ _ _ children, eid => e == eid || elemInForest children eid
  | Dom.badge _ _, _ => false
/-- Forest version of `elemInDom`. -/
def elemInForest : DomList → Nat → Bool
  | DomList.nil, _ => false
  | DomList.cons d ds, eid => elemInDom d eid || elemInForest ds eid
end

mutual
/-- `document.body.contains` for a badge identity. -/
def badgeInDom : Dom → Nat → Bool
  | Dom.elem _ _ _ _ _ children, bid => badgeInForest children bid
  | Dom.badge b _, bid => b == bid
/-- Forest version of `badgeInDom`. -/
def badgeInForest : DomList → Nat → Bool
  | DomList.nil, _ => false
  | DomList.cons d ds, bid => badgeInDom d bid || badgeInForest ds bid
end

/-- The observable attributes of an element node. -/
structure EInfo where
  cls : String
  domId : String
  aria : Bool
  dhf : Option String
deriving DecidableEq, Repr

mutual
/-- Attributes of the first element with the given identity. -/
def elemInfo : Dom → Nat → Option EInfo
  | Dom.elem e cls did aria dhf children, eid =>
    if e == eid then some ⟨cls, did, aria, dhf⟩ else elemInfoList children eid
  | Dom.badge _ _, _ => none
/-- Forest version of `elemInfo`. -/
def elemInfoList : DomList → Nat → Option EInfo
  | DomList.nil, _ => none
  | DomList.cons d ds, eid =>
    match elemInfo d eid with
    | some i => some i
    | none => elemInfoList ds eid
end

/-- `element.getAttribute("data-hours-formatted")`. -/
def getDhf (dom : DomList) (eid : Nat) : Option String :=
  match elemInfoList dom eid with
  | some i => i.dhf
  | none => none

mutual
/-- `element.setAttribute("data-hours-formatted", v)` on the element with
the given identity. -/
def setDhfDom : Dom → Nat → String → Dom
  | Dom.elem e cls did aria dhf children, eid, v =>
    if e == eid then Dom.elem e cls did aria (some v) children
    else Dom.elem e cls did aria dhf (setDhfForest children eid v)
  | Dom.badge b c, _, _ => Dom.badge b c
/-- Forest version of `setDhfDom`. -/
def setDhfForest : DomList → Nat → String → DomList
  | DomList.nil, _, _ => DomList.nil
  | DomList.cons d ds, eid, v => DomList.cons (setDhfDom d eid v) (setDhfForest ds eid v)
end

mutual
/-- `badge.textContent = v` on the badge with the given identity. -/
def setBadgeTextDom : Dom → Nat → String → Dom
  | Dom.elem e cls did aria dhf children, bid, v =>
    Dom.elem e cls did aria dhf (setBadgeTextForest children bid v)
  | Dom.badge b c, bid, v => if b == bid then Dom.badge b v else Dom.badge b c
/-- Forest version of `setBadgeTextDom`. -/
def setBadgeTextForest : DomList → Nat → String → DomList
  | DomList.nil, _, _ => DomList.nil
  | DomList.cons d ds, bid, v =>
    DomList.cons (setBadgeTextDom d bid v) (setBadgeTextForest ds bid v)
end

/-- The sweep of `removeBadges`: delete every element bearing the badge
class, wherever it sits. -/
def removeBadgesForest : DomList → DomList
  | DomList.nil => DomList.nil
  | DomList.cons (Dom.elem e cls did aria dhf children) ds =>
    DomList.cons (Dom.elem e cls did aria dhf (removeBadgesForest children))
      (removeBadgesForest ds)
  | DomList.cons (Dom.badge _ _) ds => removeBadgesForest ds

/-- `parent.insertBefore(b, element.nextSibling)` /
`parent.appendChild(b)`: insert node `b` immediately after the first
occurrence of element `eid` (document order). -/
def insertAfterForest : DomList → Nat → Dom → DomList
  | DomList.nil, _, _ => DomList.nil
  | DomList.cons d ds, eid, b =>
    match d with
    | Dom.elem e cls did aria dhf children =>
      if e == eid then DomList.cons (Dom.elem e cls did aria dhf children) (DomList.cons b ds)
      else if elemInForest children eid then
        DomList.cons (Dom.elem e cls did aria dhf (insertAfterForest children eid b)) ds
      else DomList.cons (Dom.elem e cls did aria dhf children) (insertAfterForest ds eid b)
    | Dom.badge b2 c => DomList.cons (Dom.badge b2 c) (insertAfterForest ds eid b)

/-- First badge node among a list of siblings (the `nextSibling` walk does
not descend). -/
def firstBadgeIn : DomList → Option Nat
  | DomList.nil => none
  | DomList.cons (Dom.badge b _) _ => some b
  | DomList.cons (Dom.elem _ _ _ _ _ _) ds => firstBadgeIn ds

/-- The `nextSibling` scan of `findExistingBadge`: the first badge among
the siblings following element `eid`. -/
def siblingBadgeAfter : DomList → Nat → Option Nat
  | DomList.nil, _ => none
  | DomList.cons d ds, eid =>
    match d with
    | Dom.elem e _ _ _ _ children =>
      if e == eid then firstBadgeIn ds
      else
        match siblingBadgeAfter children eid with
        | some b => some b
        | none => siblingBadgeAfter ds eid
    | Dom.badge _ _ => siblingBadgeAfter ds eid

/-- The selector
`'[class*="price"], [class*="Price"], [id*="price"], .a-price'` used for
the shared price container. -/
def isPriceContainer (cls domId : String) : Bool :=
  strIncludes cls "price" || strIncludes cls "Price" || strIncludes domId "price"
    || hasClassToken cls "a-price"

/-- Whether a node matches the price-container selector (a badge's class
`price-hours-badge` contains `price`, though a badge never has children to
search). -/
def nodeMatchesContainer : Dom → Bool
  | Dom.elem _ cls did _ _ _ => isPriceContainer cls did
  | Dom.badge _ _ => true

mutual
/-- The first element with identity `eid`, together with its proper
ancestors (nearest first). -/
def findWithAncestors : Dom → Nat → Option (List Dom × Dom)
  | Dom.elem e cls did aria dhf children, eid =>
    if e == eid then some ([], Dom.elem e cls did aria dhf children)
    else
      match findWithAncestorsList children eid with
      | some r => some (r.1 ++ [Dom.elem e cls did aria dhf children], r.2)
      | none => none
  | Dom.badge _ _, _ => none
/-- Forest version of `findWithAncestors`. -/
def findWithAncestorsList : DomList → Nat → Option (List Dom × Dom)
  | DomList.nil, _ => none
  | DomList.cons d ds, eid =>
    match findWithAncestors d eid with
    | some r => some r
    | none => findWithAncestorsList ds eid
end

/-- First badge among the descendants of a forest, preorder
(`container.querySelector(".price-hours-badge")`). -/
def descFirstBadge : DomList → Option Nat
  | DomList.nil => none
  | DomList.cons (Dom.badge b _) _ => some b
  | DomList.cons (Dom.elem _ _ _ _ _ children) ds =>
    match descFirstBadge children with
    | some b => some b
    | none => descFirstBadge ds

/-- The children of a node. -/
def childrenOf : Dom → DomList
  | Dom.elem _ _ _ _ _ children => children
  | Dom.badge _ _ => DomList.nil

/-- Steps 2 and 3 of `findExistingBadge`: the following-sibling scan, then
the shared price container (`closest` returns the element itself when it
matches, and the source requires the container to differ from the element,
so a self-match yields nothing). -/
def findBadgeSteps23 (dom : DomList) (eid : Nat) : Option Nat :=
  match siblingBadgeAfter dom eid with
  | some b => some b
  | none =>
    match findWithAncestorsList dom eid with
    | none => none
    | some r =>
      if nodeMatchesContainer r.2 then none
      else
        match r.1.find? nodeMatchesContainer with
        | some container => descFirstBadge (childrenOf container)
        | none => none

/-- `findExistingBadge(element)`: the tracked badge if it is still in the
document, else the sibling scan, else the shared price container. -/
def findExistingBadge (dom : DomList) (m : List (Nat × Nat)) (eid : Nat) :
    Option Nat :=
  match (m.find? (fun p => p.1 == eid)).map Prod.snd with
  | some bid => if badgeInForest dom bid then some bid else findBadgeSteps23 dom eid
  | none => findBadgeSteps23 dom eid

/-- The presentation state: the document forest, the `injectedBadges` map
(element identity → badge identity), and the fresh-badge counter. -/
structure PState where
  dom : DomList
  badges : List (Nat × Nat)
  fresh : Nat

/-- One iteration of the `forEach` in `injectBadgesSideBySide` for the
candidate `(eid, hoursFormatted)`: skip when the formatted text is empty or
the element is gone; when a badge is found, leave it if the element's
`data-hours-formatted` equals the new text, else update the badge text and
the attribute; otherwise re-check the hidden/`priceToPay` guards, create a
fresh badge (its copied font styles are not modelled), insert it right
after the element, and record it. -/
def injectStep (st : PState) (c : Nat × String) : PState :=
  if c.2 == "" then st
  else if !(elemInForest st.dom c.1) then st
  else
    match findExistingBadge st.dom st.badges c.1 with
    | some bid =>
      if getDhf st.dom c.1 == some c.2 then st
      else { st with dom := setDhfForest (setBadgeTextForest st.dom bid c.2) c.1 c.2 }
    | none =>
      match elemInfoList st.dom c.1 with
      | none => st
      | some info =>
        let cl := lowerStr info.cls
        if strIncludes cl "offscreen" || strIncludes cl "sr-only"
            || strIncludes cl "visually-hidden" || info.aria then st
        else if strIncludes cl "pricetopay" then st
        else
          { dom := insertAfterForest st.dom c.1 (Dom.badge st.fresh c.2),
            badges := (c.1, st.fresh) :: st.badges,
            fresh := st.fresh + 1 }

/-- `injectBadgesSideBySide()` over the candidate list. -/
def injectBadgesSideBySide (cands : List (Nat × String)) (st : PState) : PState :=
  cands.foldl injectStep st

/-- `removeBadges()` in side-by-side mode: delete every badge element and
clear the badge map (the replace map plays no role in this mode). -/
def removeBadgesState (st : PState) : PState :=
  { st with dom := removeBadgesForest st.dom, badges := [] }

/-- One full side-by-side pass of `processPage`: write the
`data-hours-formatted` metadata for every candidate, then `injectBadges` =
`removeBadges()` followed by the side-by-side injection. -/
def passSideBySide (cands : List (Nat × String)) (st : PState) : PState :=
  let d := cands.foldl (fun d c => setDhfForest d c.1 c.2) st.dom
  injectBadgesSideBySide cands (removeBadgesState { st with dom := d })

/-- The injection invariant: every badge node is accounted for by the
badge map, the map has at most one badge per element, every mapped element
is a candidate key, and every mapped badge is in the document. -/
def InjectInv (st : PState) (keys : List Nat) : Prop :=
  badgeCountList st.dom = st.badges.length ∧
  (st.badges.map Prod.fst).Nodup ∧
  (∀ k ∈ st.badges.map Prod.fst, k ∈ keys) ∧
  (∀ p ∈ st.badges, badgeInForest st.dom p.2 = true)

/-- The two-sibling document of the C5 counterexample: element 2 (id
`price2`) followed by element 1 (class `price`); the selector scan yields
element 1 first (the `[class*="price"]` selector precedes `[id*="price"]`)
and then element 2. -/
def c5Forest : DomList :=
  DomList.cons (Dom.elem 2 "" "price2" false none DomList.nil)
    (DomList.cons (Dom.elem 1 "price" "" false none DomList.nil) DomList.nil)

/-- The candidate list of the C5 counterexample. -/
def c5Cands : List (Nat × String) := [(1, "1h"), (2, "1h")]

/-! ## Theorems -/

/-- C1, counterexample: the claim says `calculateHours` returns null for any
non-finite argument, but a price of `Infinity` with a valid wage passes the
`isNaN` and sign checks and the function returns `Infinity / 1 = Infinity`,
not null. -/
theorem calculateHours_c1_counterexample :
    calculateHours JSNum.inf (JSNum.fin 1) = some JSNum.inf ∧
    calculateHours JSNum.inf (JSNum.fin 1) ≠ none := by
  decide

/-- C1 (amended): `calculateHours(price, wage)` returns `price / wage`
exactly whenever both arguments are finite with `price ≥ 0` and `wage > 0`,
and it returns null exactly when `price` or `wage` is NaN, `price < 0`, or
`wage ≤ 0`; a non-NaN infinite argument that passes the sign checks is not
rejected. -/
theorem calculateHours_c1_amended :
    (∀ p w : ℚ, 0 ≤ p → 0 < w →
      calculateHours (JSNum.fin p) (JSNum.fin w) = some (JSNum.fin (p / w))) ∧
    (∀ p w : JSNum,
      calculateHours p w = none ↔
        (jsIsNaN p = true ∨ jsIsNaN w = true ∨
         jsLt p (JSNum.fin 0) = true ∨ jsLe w (JSNum.fin 0) = true)) := by
  constructor
  · intro p w hp hw
    have hp' : ¬p < 0 := not_lt.mpr hp
    have hw' : ¬w ≤ 0 := not_le.mpr hw
    have hwne : ¬w = 0 := ne_of_gt hw
    simp [calculateHours, jsIsNaN, jsLt, jsLe, jsDiv, hp', hw', hwne]
  · intro p w
    cases p <;> cases w <;>
      simp only [calculateHours, jsIsNaN, jsLt, jsLe] <;>
      (try split_ifs with h) <;> simp_all

/-- Closed witness for `calculateHours_c1_amended`. -/
theorem calculateHours_c1_amended_witness :
    calculateHours (JSNum.fin 30) (JSNum.fin 10) = some (JSNum.fin 3) := by
  have h := calculateHours_c1_amended.1 30 10 (by norm_num) (by norm_num)
  rw [h]
  norm_num

/-- C2, counterexample: the claim asserts
`getTierColor(0, {green:10, yellow:50, red:100}) = "yellow"`, but a value
strictly below the green threshold takes the `value < green` branch and the
function returns `"green"`. -/
theorem getTierColor_c2_counterexample :
    getTierColor (JSNum.fin 0) (some ⟨10, 50, 100⟩) = "green" ∧
    getTierColor (JSNum.fin 0) (some ⟨10, 50, 100⟩) ≠ "yellow" := by
  decide

/-- C2 (amended): with well-formed thresholds `0 ≤ green ≤ yellow`,
`getTierColor` classifies `value < green → "green"`,
`green ≤ value ≤ yellow → "yellow"`, `value > yellow → "red"`, with the
special case `green = 0 ∧ value = 0 → "green"`; in particular
`getTierColor(0, {green:0,…}) = "green"`,
`getTierColor(0, {green:10,…}) = "green"` (not `"yellow"`), and
`getTierColor(150, {green:0, yellow:50,…}) = "red"`. -/
theorem getTierColor_c2_amended (v g y r : ℚ) (hg : 0 ≤ g) (hgy : g ≤ y) :
    ((g = 0 ∧ v = 0) → getTierColor (JSNum.fin v) (some ⟨g, y, r⟩) = "green") ∧
    (v < g → getTierColor (JSNum.fin v) (some ⟨g, y, r⟩) = "green") ∧
    (g ≤ v → v ≤ y → ¬(g = 0 ∧ v = 0) →
      getTierColor (JSNum.fin v) (some ⟨g, y, r⟩) = "yellow") ∧
    (y < v → getTierColor (JSNum.fin v) (some ⟨g, y, r⟩) = "red") ∧
    getTierColor (JSNum.fin 0) (some ⟨0, 50, 100⟩) = "green" ∧
    getTierColor (JSNum.fin 0) (some ⟨10, 50, 100⟩) = "green" ∧
    getTierColor (JSNum.fin 150) (some ⟨0, 50, 100⟩) = "red" := by
  refine ⟨?_, ?_, ?_, ?_, by decide, by decide, by decide⟩
  · rintro ⟨hg0, hv0⟩
    subst hg0; subst hv0
    simp [getTierColor, jsIsNaN]
  · intro hv
    simp only [getTierColor, jsIsNaN, jsLt, jsLe]
    simp [hv]
  · intro h1 h2 h0
    have hnv : ¬v < g := not_lt.mpr h1
    simp only [getTierColor, jsIsNaN, jsLt, jsLe]
    simp [hnv, h1, h2, h0, beq_iff_eq]
  · intro hv
    have h0 : ¬(g = 0 ∧ v = 0) := by
      rintro ⟨hg0, hv0⟩
      rw [hg0] at hgy
      rw [hv0] at hv
      exact absurd (lt_of_le_of_lt hgy hv) (lt_irrefl 0)
    have hnv : ¬v < g := not_lt.mpr (le_trans hgy (le_of_lt hv))
    have hny : ¬v ≤ y := not_le.mpr hv
    simp only [getTierColor, jsIsNaN, jsLt, jsLe]
    simp [hnv, hny, hv, h0, beq_iff_eq]

/-- Closed witness for `getTierColor_c2_amended`: the boundary
`value = green` falls into yellow. -/
theorem getTierColor_c2_amended_witness :
    getTierColor (JSNum.fin 5) (some ⟨5, 10, 20⟩) = "yellow" :=
  ((getTierColor_c2_amended 5 5 10 20 (by norm_num) (by norm_num)).2.2.1)
    (by norm_num) (by norm_num) (by norm_num)

/-- C10: `getTierColor` never depends on the `red` threshold: for any value
and any two settings agreeing on `green` and `yellow`, the result is the
same (the `red` field is destructured but never compared). -/
theorem getTierColor_c10_red_independent (value : JSNum) (g y r r2 : ℚ) :
    getTierColor value (some ⟨g, y, r⟩) = getTierColor value (some ⟨g, y, r2⟩) := rfl

/-- C3: `formatHours` returns `"N/A"` for null, NaN, or negative input, and
buckets by rounding to the nearest half hour: hours in `[0, 0.25)` give
`"< 0.5h"`, hours in `[0.25, 0.75)` give `"0.5h"`, and hours in
`[0.75, 1.25)` give `"1h"` (the boundaries 0.25 and 0.75 land in the upper
bucket because `Math.round` rounds ties up). -/
theorem formatHours_c3_buckets :
    formatHours none = "N/A" ∧
    formatHours (some JSNum.nan) = "N/A" ∧
    (∀ q : ℚ, q < 0 → formatHours (some (JSNum.fin q)) = "N/A") ∧
    (∀ q : ℚ, 0 ≤ q → q < 1 / 4 → formatHours (some (JSNum.fin q)) = "< 0.5h") ∧
    (∀ q : ℚ, 1 / 4 ≤ q → q < 3 / 4 → formatHours (some (JSNum.fin q)) = "0.5h") ∧
    (∀ q : ℚ, 3 / 4 ≤ q → q < 5 / 4 → formatHours (some (JSNum.fin q)) = "1h") := by
  refine ⟨by decide, by decide, ?_, ?_, ?_, ?_⟩
  · intro q hq
    have h : jsLt (JSNum.fin q) (JSNum.fin 0) = true := by simp [jsLt, hq]
    simp [formatHours, jsIsNaN, h]
  · intro q h1 h2
    have hk : jround (q * 2) = 0 := by
      unfold jround
      rw [Int.floor_eq_iff]
      push_cast
      constructor <;> linarith
    have h : jsLt (JSNum.fin q) (JSNum.fin 0) = false := by
      simp [jsLt]; linarith
    simp [formatHours, jsIsNaN, h, hk]
  · intro q h1 h2
    have hk : jround (q * 2) = 1 := by
      unfold jround
      rw [Int.floor_eq_iff]
      push_cast
      constructor <;> linarith
    have h : jsLt (JSNum.fin q) (JSNum.fin 0) = false := by
      simp [jsLt]; linarith
    simp [formatHours, jsIsNaN, h, hk]
    norm_num
    rfl
  · intro q h1 h2
    have hk : jround (q * 2) = 2 := by
      unfold jround
      rw [Int.floor_eq_iff]
      push_cast
      constructor <;> linarith
    have h : jsLt (JSNum.fin q) (JSNum.fin 0) = false := by
      simp [jsLt]; linarith
    simp [formatHours, jsIsNaN, h, hk]
    norm_num
    rfl

/-- Closed witness for `formatHours_c3_buckets`. -/
theorem formatHours_c3_buckets_witness :
    formatHours (some (JSNum.fin (1 / 2))) = "0.5h" :=
  formatHours_c3_buckets.2.2.2.2.1 (1 / 2) (by norm_num) (by norm_num)

/-- C8: `isShoppingSite` is total and boolean-valued; every address the URL
parser rejects yields `false` (the `try`/`catch`), and on the three test
addresses it returns true, false, false respectively, with no exception. -/
theorem isShoppingSite_c8 :
    (∀ s : String, jsParseURL s = none → isShoppingSite s = false) ∧
    isShoppingSite "https://www.amazon.com/dp/X" = true ∧
    isShoppingSite "https://news.example.com/article" = false ∧
    isShoppingSite "not a url" = false := by
  refine ⟨?_, by decide, by decide, by decide⟩
  intro s h
  simp [isShoppingSite, h]

/-- Closed witness for `isShoppingSite_c8`. -/
theorem isShoppingSite_c8_witness :
    isShoppingSite "::nohost::" = false :=
  isShoppingSite_c8.1 "::nohost::" (by decide)

/-- C4, counterexample: the claim says the normalization removes a `.`
followed by *exactly* three digits; in `$1.2345` the dot is followed by
four digits, so under that rule it would be kept and the parse would give
`1.2345`, but the source's lookahead `/\.(?=\d{3})/` removes it and
`parsePrice` returns `12345`. -/
theorem parsePrice_c4_counterexample :
    parsePrice "$1.2345" none = some 12345 ∧
    String.mk (stripThousandsDotsExact (cleanedPrice "$1.2345").toList) = "1.2345" ∧
    String.mk (stripThousandsDots (cleanedPrice "$1.2345").toList) = "12345" := by
  refine ⟨?_, by decide, by decide⟩
  simp [parsePrice, isTimeValue, digitThenLetter, startsDigitThenHms, TIME_KEYWORDS,
    strIncludes, includesAux, leadEq, lowerStr, charLower, trimJs, isJsSpace, isCurrencyChar,
    cleanedPrice, stripThousandsDots, replaceFirstComma, digitsVal, jsParseFloat]
  norm_num

/-- C4 (amended): `parsePrice` strips currency symbols, commas, and
whitespace and removes a `.` followed by *at least* three digits as a
thousands separator; `parsePrice("$1,234.56") = 1234.56`,
`parsePrice("2h 30m") = null`, `parsePrice("99", no-price-class) = null`,
`parsePrice("99", class="price") = 99`, and (pinning the amended separator
rule) `parsePrice("$1.2345") = 12345`. -/
theorem parsePrice_c4_amended :
    parsePrice "$1,234.56" none = some (123456 / 100) ∧
    parsePrice "2h 30m" none = none ∧
    parsePrice "99" (some elemNoPriceClass) = none ∧
    parsePrice "99" (some elemPriceClass) = some 99 ∧
    parsePrice "$1.2345" none = some 12345 := by
  refine ⟨?_, by decide, by decide, ?_, ?_⟩
  · simp [parsePrice, isTimeValue, digitThenLetter, startsDigitThenHms, TIME_KEYWORDS,
      strIncludes, includesAux, leadEq, lowerStr, charLower, trimJs, isJsSpace, isCurrencyChar,
      cleanedPrice, stripThousandsDots, replaceFirstComma, digitsVal, jsParseFloat]
    norm_num
  · simp [parsePrice, elemPriceClass, isTimeValue, digitThenLetter, startsDigitThenHms,
      TIME_KEYWORDS, strIncludes, includesAux, leadEq, lowerStr, charLower, trimJs, isJsSpace,
      isCurrencyChar, cleanedPrice, stripThousandsDots, replaceFirstComma, digitsVal,
      jsParseFloat, isPriceElement, excludePatterns, hasClassToken, splitChar, getAttr,
      hasAttr, matchesPriceCtx, matchesPriceOnly]
    norm_num
  · simp [parsePrice, isTimeValue, digitThenLetter, startsDigitThenHms, TIME_KEYWORDS,
      strIncludes, includesAux, leadEq, lowerStr, charLower, trimJs, isJsSpace, isCurrencyChar,
      cleanedPrice, stripThousandsDots, replaceFirstComma, digitsVal, jsParseFloat]
    norm_num

/-! ### Detector lemmas -/

/-- Generic fold invariant. -/
theorem foldl_inv {σ β : Type} (P : σ → Prop) (f : σ → β → σ) (l : List β)
    (hstep : ∀ s b, P s → P (f s b)) :
    ∀ s, P s → P (l.foldl f s) := by
  induction l with
  | nil => intro s h; simpa
  | cons b t ih => intro s h; exact ih _ (hstep s b h)

/-- A key occurs in `mapInsert l k v` iff it occurs in `l` or equals `k`. -/
theorem mapInsert_keys_mem {α : Type} (l : List (Nat × α)) (k : Nat) (v : α) (a : Nat) :
    a ∈ (mapInsert l k v).map Prod.fst ↔ a ∈ l.map Prod.fst ∨ a = k := by
  induction l with
  | nil => simp [mapInsert]
  | cons h t ih =>
    by_cases hk : h.1 == k
    · simp only [mapInsert, hk, if_pos]
      simp only [beq_iff_eq] at hk
      subst hk
      simp
      tauto
    · simp only [mapInsert, hk, if_neg, Bool.false_eq_true, not_false_iff]
      simp [ih]
      tauto

/-- `mapInsert` preserves key distinctness. -/
theorem mapInsert_keys_nodup {α : Type} (l : List (Nat × α)) (k : Nat) (v : α)
    (h : (l.map Prod.fst).Nodup) : ((mapInsert l k v).map Prod.fst).Nodup := by
  induction l with
  | nil => simp [mapInsert]
  | cons p t ih =>
    simp only [List.map_cons, List.nodup_cons] at h
    by_cases hk : p.1 == k
    · simp only [mapInsert, hk, if_pos, List.map_cons, List.nodup_cons]
      simp only [beq_iff_eq] at hk
      subst hk
      exact h
    · simp only [mapInsert, hk, Bool.false_eq_true, if_neg, not_false_iff,
        List.map_cons, List.nodup_cons]
      refine ⟨?_, ih h.2⟩
      rw [mapInsert_keys_mem]
      simp only [beq_iff_eq] at hk
      tauto

/-- Every pair of `mapInsert l k v` is a pair of `l` or the inserted pair. -/
theorem mapInsert_mem {α : Type} (l : List (Nat × α)) (k : Nat) (v : α) :
    ∀ p ∈ mapInsert l k v, p ∈ l ∨ p = (k, v) := by
  induction l with
  | nil => simp [mapInsert]
  | cons h t ih =>
    intro p hp
    by_cases hk : h.1 == k
    · simp only [mapInsert, hk, if_pos, List.mem_cons] at hp
      rcases hp with hp | hp
      · right; exact hp
      · left; exact List.mem_cons_of_mem _ hp
    · simp only [mapInsert, hk, Bool.false_eq_true, if_neg, not_false_iff,
        List.mem_cons] at hp
      rcases hp with hp | hp
      · left; simp [hp]
      · rcases ih p hp with h2 | h2
        · left; exact List.mem_cons_of_mem _ h2
        · right; exact h2

/-- The deduplicated map has pairwise-distinct keys. -/
theorem jsMapDedup_keys_nodup {α : Type} (ps : List (Nat × α)) :
    ((jsMapDedup ps).map Prod.fst).Nodup := by
  have h := foldl_inv (fun acc : List (Nat × α) => (acc.map Prod.fst).Nodup)
    (fun acc p => mapInsert acc p.1 p.2) ps
    (fun s b hs => mapInsert_keys_nodup s b.1 b.2 hs) [] (by simp)
  exact h

/-- Generalized accumulator form of `jsMapDedup_mem`. -/
theorem foldl_mapInsert_mem {α : Type} (ps : List (Nat × α)) :
    ∀ acc q, q ∈ ps.foldl (fun acc p => mapInsert acc p.1 p.2) acc →
      q ∈ acc ∨ q ∈ ps := by
  induction ps with
  | nil =>
    intro acc q h
    simp only [List.foldl_nil] at h
    exact Or.inl h
  | cons p t ih =>
    intro acc q h
    simp only [List.foldl_cons] at h
    rcases ih _ q h with h2 | h2
    · rcases mapInsert_mem acc p.1 p.2 q h2 with h3 | h3
      · exact Or.inl h3
      · right
        rw [h3]
        exact List.mem_cons_self _ _
    · right
      exact List.mem_cons_of_mem _ h2

/-- Every pair of the deduplicated map comes from the input list. -/
theorem jsMapDedup_mem {α : Type} (ps : List (Nat × α)) :
    ∀ p ∈ jsMapDedup ps, p ∈ ps := by
  intro p hp
  rcases foldl_mapInsert_mem ps [] p hp with h | h
  · simp at h
  · exact h

/-- C7: the candidate list returned by `detectPrices` contains at most one
candidate per DOM element: the element identities of the result are
pairwise distinct, for every abstracted document state (the `Map`-based
deduplication is last-write-wins keyed by element). -/
theorem detectPrices_c7_nodup (selectorResults : List (List Elem))
    (textNodes : List (String × List Elem)) :
    ((detectPrices selectorResults textNodes).map
      (fun c => c.element.eid)).Nodup := by
  unfold detectPrices
  set ps := ((scanTextNodes textNodes (scanSelectors selectorResults ([], []))).2.map
    (fun p => (p.element.eid, p))) with hps
  have hagree : ∀ p ∈ jsMapDedup ps, p.2.element.eid = p.1 := by
    intro p hp
    have h2 := jsMapDedup_mem ps p hp
    rw [hps] at h2
    simp only [List.mem_map] at h2
    obtain ⟨c, _, hc⟩ := h2
    rw [← hc]
  have hmm : ((jsMapDedup ps).map Prod.snd).map (fun c => c.element.eid) =
      (jsMapDedup ps).map Prod.fst := by
    rw [List.map_map]
    exact List.map_congr_left hagree
  rw [hmm]
  exact jsMapDedup_keys_nodup ps

/-- A method-1 candidate is only produced with a positive parsed price. -/
theorem selectorCandidate_pos (found : List Nat) (e : Elem) (c : Cand)
    (h : selectorCandidate found e = some c) : 0 < c.price := by
  unfold selectorCandidate at h
  repeat split at h
  all_goals simp_all
  obtain ⟨-, -, -, -, -, h⟩ := h
  split at h
  · split at h
    · simp only [Option.some.injEq] at h
      rw [← h]
      assumption
    · exact absurd h (by simp)
  · exact absurd h (by simp)

/-- The method-2 ancestor climb only appends candidates with a positive
price. -/
theorem textNodeClimb_pos (mtext : String) (chain : List Elem) :
    ∀ st : List Nat × List Cand, (∀ c ∈ st.2, 0 < c.price) →
      ∀ c ∈ (textNodeClimb mtext chain st).2, 0 < c.price := by
  induction chain with
  | nil => intro st hst; simpa [textNodeClimb]
  | cons parent rest ih =>
    intro st hst c hc
    unfold textNodeClimb at hc
    split at hc
    · exact ih st hst c hc
    · split at hc
      · split at hc
        · simp only [List.mem_append, List.mem_singleton] at hc
          rcases hc with hc | hc
          · exact hst c hc
          · rw [hc]
            assumption
        · exact ih st hst c hc
      · exact ih st hst c hc

/-- `selectorStep` preserves positivity of all accumulated prices. -/
theorem selectorStep_pos (st : List Nat × List Cand) (e : Elem)
    (hst : ∀ c ∈ st.2, 0 < c.price) :
    ∀ c ∈ (selectorStep st e).2, 0 < c.price := by
  unfold selectorStep
  split
  · next c0 hc0 =>
      intro c hc
      simp only [List.mem_append, List.mem_singleton] at hc
      rcases hc with hc | hc
      · exact hst c hc
      · rw [hc]
        exact selectorCandidate_pos _ _ _ hc0
  · exact hst

/-- Method 1 preserves positivity. -/
theorem scanSelectors_pos (selectorResults : List (List Elem))
    (st : List Nat × List Cand) (hst : ∀ c ∈ st.2, 0 < c.price) :
    ∀ c ∈ (scanSelectors selectorResults st).2, 0 < c.price := by
  unfold scanSelectors
  exact foldl_inv (fun s : List Nat × List Cand => ∀ c ∈ s.2, 0 < c.price)
    (fun st elems => elems.foldl selectorStep st) selectorResults
    (fun s elems hs =>
      foldl_inv (fun s : List Nat × List Cand => ∀ c ∈ s.2, 0 < c.price)
        selectorStep elems (fun s e hs => selectorStep_pos s e hs) s hs)
    st hst

/-- Method 2 preserves positivity. -/
theorem scanTextNodes_pos (textNodes : List (String × List Elem))
    (st : List Nat × List Cand) (hst : ∀ c ∈ st.2, 0 < c.price) :
    ∀ c ∈ (scanTextNodes textNodes st).2, 0 < c.price := by
  unfold scanTextNodes
  refine foldl_inv (fun s : List Nat × List Cand => ∀ c ∈ s.2, 0 < c.price)
    textNodeStep textNodes ?_ st hst
  intro s tn hs
  unfold textNodeStep
  split
  · exact hs
  · exact foldl_inv (fun s : List Nat × List Cand => ∀ c ∈ s.2, 0 < c.price)
      (fun st m => textNodeClimb m tn.2 st) (matchAllPrices tn.1)
      (fun s m hs => textNodeClimb_pos m tn.2 s hs) s hs

/-- C9: every candidate returned by `detectPrices` has a strictly positive
price — both scan strategies admit a candidate only under the
`price !== null && price > 0` gate, for every abstracted document state. -/
theorem detectPrices_c9_positive (selectorResults : List (List Elem))
    (textNodes : List (String × List Elem)) :
    ∀ c ∈ detectPrices selectorResults textNodes, 0 < c.price := by
  intro c hc
  unfold detectPrices at hc
  simp only [List.mem_map] at hc
  obtain ⟨p, hp, hpc⟩ := hc
  have h1 := jsMapDedup_mem _ p hp
  simp only [List.mem_map] at h1
  obtain ⟨c2, hc2, hc2e⟩ := h1
  have hpos := scanTextNodes_pos textNodes _
    (scanSelectors_pos selectorResults ([], []) (by simp)) c2 hc2
  rw [← hpc, ← hc2e]
  exact hpos

/-- Closed witness for `detectPrices_c9_positive` at a one-element
document. -/
theorem detectPrices_c9_positive_witness :
    0 < (Cand.mk elemDollarFive 5 "$5").price := by
  apply detectPrices_c9_positive [[elemDollarFive]] []
  simp [detectPrices, scanSelectors, scanTextNodes, selectorStep, selectorCandidate,
    elemDollarFive, jsMapDedup, mapInsert, hasClassToken, splitChar, lowerStr, charLower,
    strIncludes, includesAux, leadEq, getAttr, hasAttr, isPriceElement, excludePatterns,
    isTimeValue, digitThenLetter, startsDigitThenHms, TIME_KEYWORDS, trimJs, isJsSpace,
    isCurrencyChar, parsePrice, matchesPriceCtx, matchesPriceOnly, cleanedPrice,
    stripThousandsDots, replaceFirstComma, digitsVal, jsParseFloat]
  norm_num
  exact ⟨3, by simp [mapInsert]⟩

/-- C6: replacing and then restoring does not leave the element
indistinguishable from its pre-replacement state.  Evaluating the code at
the failing input (inline `margin-left: 5px`, inline display unset,
computed display `inline`): text, markup, background, padding, and
border-radius come back exactly, but `style.marginLeft` — mutated to "0"
by the replacement — is absent from the snapshot and stays "0", and the
inline `display`, originally unset, comes back materialized as the
computed value. -/
theorem restore_c6_not_lossless :
    restoreOriginalPrice
        (replacePriceWithHours replacedElemExample [] 7 "2h" "inline").1
        (replacePriceWithHours replacedElemExample [] 7 "2h" "inline").2 7 =
      { replacedElemExample with ml := "0", disp := "inline" } ∧
    replacedElemExample.ml = "5px" ∧
    ({ replacedElemExample with ml := "0", disp := "inline" } : PriceEl).ml ≠
      replacedElemExample.ml := by
  decide

/-! ### Badge-injection lemmas -/

/-- `removeBadges` leaves no badge node behind. -/
theorem removeBadges_badgeCount (f : DomList) :
    badgeCountList (removeBadgesForest f) = 0 := by
  induction f using removeBadgesForest.induct <;>
    simp_all [removeBadgesForest, badgeCountList, badgeCount]

mutual
/-- Updating a badge's text does not change the badge count (node). -/
theorem badgeCount_setBadgeTextDom (d : Dom) (bid : Nat) (v : String) :
    badgeCount (setBadgeTextDom d bid v) = badgeCount d := by
  cases d with
  | elem e cls did aria dhf children =>
    simp [setBadgeTextDom, badgeCount, badgeCount_setBadgeTextForest children bid v]
  | badge b c =>
    by_cases h : b == bid <;> simp [setBadgeTextDom, badgeCount, h]
/-- Updating a badge's text does not change the badge count (forest). -/
theorem badgeCount_setBadgeTextForest (f : DomList) (bid : Nat) (v : String) :
    badgeCountList (setBadgeTextForest f bid v) = badgeCountList f := by
  cases f with
  | nil => simp [setBadgeTextForest]
  | cons d ds =>
    simp [setBadgeTextForest, badgeCountList, badgeCount_setBadgeTextDom d bid v,
      badgeCount_setBadgeTextForest ds bid v]
end

mutual
/-- Setting `data-hours-formatted` does not change the badge count (node). -/
theorem badgeCount_setDhfDom (d : Dom) (eid : Nat) (v : String) :
    badgeCount (setDhfDom d eid v) = badgeCount d := by
  cases d with
  | elem e cls did aria dhf children =>
    by_cases h : e == eid <;>
      simp [setDhfDom, badgeCount, h, badgeCount_setDhfForest children eid v]
  | badge b c => simp [setDhfDom]
/-- Setting `data-hours-formatted` does not change the badge count
(forest). -/
theorem badgeCount_setDhfForest (f : DomList) (eid : Nat) (v : String) :
    badgeCountList (setDhfForest f eid v) = badgeCountList f := by
  cases f with
  | nil => simp [setDhfForest]
  | cons d ds =>
    simp [setDhfForest, badgeCountList, badgeCount_setDhfDom d eid v,
      badgeCount_setDhfForest ds eid v]
end

mutual
/-- Updating a badge's text keeps every badge identity in place (node). -/
theorem badgeInDom_setBadgeTextDom (d : Dom) (bid : Nat) (v : String) (b2 : Nat) :
    badgeInDom (setBadgeTextDom d bid v) b2 = badgeInDom d b2 := by
  cases d with
  | elem e cls did aria dhf children =>
    simp [setBadgeTextDom, badgeInDom, badgeInForest_setBadgeTextForest children bid v b2]
  | badge b c =>
    by_cases h : b == bid <;> simp [setBadgeTextDom, badgeInDom, h]
/-- Updating a badge's text keeps every badge identity in place (forest). -/
theorem badgeInForest_setBadgeTextForest (f : DomList) (bid : Nat) (v : String) (b2 : Nat) :
    badgeInForest (setBadgeTextForest f bid v) b2 = badgeInForest f b2 := by
  cases f with
  | nil => simp [setBadgeTextForest]
  | cons d ds =>
    simp [setBadgeTextForest, badgeInForest, badgeInDom_setBadgeTextDom d bid v b2,
      badgeInForest_setBadgeTextForest ds bid v b2]
end

mutual
/-- Setting `data-hours-formatted` keeps every badge in place (node). -/
theorem badgeInDom_setDhfDom (d : Dom) (eid : Nat) (v : String) (b2 : Nat) :
    badgeInDom (setDhfDom d eid v) b2 = badgeInDom d b2 := by
  cases d with
  | elem e cls did aria dhf children =>
    by_cases h : e == eid <;>
      simp [setDhfDom, badgeInDom, h, badgeInForest_setDhfForest children eid v b2]
  | badge b c => simp [setDhfDom]
/-- Setting `data-hours-formatted` keeps every badge in place (forest). -/
theorem badgeInForest_setDhfForest (f : DomList) (eid : Nat) (v : String) (b2 : Nat) :
    badgeInForest (setDhfForest f eid v) b2 = badgeInForest f b2 := by
  cases f with
  | nil => simp [setDhfForest]
  | cons d ds =>
    simp [setDhfForest, badgeInForest, badgeInDom_setDhfDom d eid v b2,
      badgeInForest_setDhfForest ds eid v b2]
end

/-- Inserting after a present element adds exactly the inserted node's
badges. -/
theorem badgeCount_insertAfterForest (f : DomList) (eid : Nat) (b : Dom)
    (h : elemInForest f eid = true) :
    badgeCountList (insertAfterForest f eid b) = badgeCountList f + badgeCount b := by
  cases f with
  | nil => simp [elemInForest] at h
  | cons d ds =>
    cases d with
    | elem e cls did aria dhf children =>
      by_cases heq : e == eid
      · simp [insertAfterForest, heq, badgeCountList, badgeCount]
        omega
      · by_cases hin : elemInForest children eid
        · have ih := badgeCount_insertAfterForest children eid b hin
          simp [insertAfterForest, heq, hin, badgeCountList, badgeCount, ih]
          omega
        · have h2 : elemInForest ds eid = true := by
            simp [elemInForest, elemInDom, heq, hin] at h
            exact h
          have ih := badgeCount_insertAfterForest ds eid b h2
          simp [insertAfterForest, heq, hin, badgeCountList, ih]
          omega
    | badge b2 c =>
      have h2 : elemInForest ds eid = true := by
        simp [elemInForest, elemInDom] at h
        exact h
      have ih := badgeCount_insertAfterForest ds eid b h2
      simp [insertAfterForest, badgeCountList, ih, badgeCount]
      omega

/-- Insertion keeps every previously present badge present. -/
theorem badgeInForest_insertAfterForest (f : DomList) (eid : Nat) (b : Dom) (b2 : Nat)
    (h : badgeInForest f b2 = true) :
    badgeInForest (insertAfterForest f eid b) b2 = true := by
  cases f with
  | nil => simp [badgeInForest] at h
  | cons d ds =>
    cases d with
    | elem e cls did aria dhf children =>
      simp only [badgeInForest, badgeInDom, Bool.or_eq_true] at h
      by_cases heq : e == eid
      · simp only [insertAfterForest, heq, if_pos, badgeInForest, badgeInDom,
          Bool.or_eq_true]
        tauto
      · by_cases hin : elemInForest children eid
        · simp only [insertAfterForest, heq, Bool.false_eq_true, if_neg,
            not_false_iff, hin, if_pos, badgeInForest, badgeInDom, Bool.or_eq_true]
          rcases h with h | h
          · exact Or.inl (badgeInForest_insertAfterForest children eid b b2 h)
          · exact Or.inr h
        · simp only [insertAfterForest, heq, hin, Bool.false_eq_true, if_neg,
            not_false_iff, badgeInForest, badgeInDom, Bool.or_eq_true]
          rcases h with h | h
          · exact Or.inl h
          · exact Or.inr (badgeInForest_insertAfterForest ds eid b b2 h)
    | badge b3 c =>
      simp only [badgeInForest, badgeInDom, Bool.or_eq_true] at h
      simp only [insertAfterForest, badgeInForest, badgeInDom, Bool.or_eq_true]
      rcases h with h | h
      · exact Or.inl h
      · exact Or.inr (badgeInForest_insertAfterForest ds eid b b2 h)

/-- A badge inserted after a present element is present. -/
theorem badgeInForest_insertAfter_new (f : DomList) (eid : Nat) (bid : Nat) (v : String)
    (h : elemInForest f eid = true) :
    badgeInForest (insertAfterForest f eid (Dom.badge bid v)) bid = true := by
  cases f with
  | nil => simp [elemInForest] at h
  | cons d ds =>
    cases d with
    | elem e cls did aria dhf children =>
      by_cases heq : e == eid
      · simp [insertAfterForest, heq, badgeInForest, badgeInDom]
      · by_cases hin : elemInForest children eid
        · simp only [insertAfterForest, heq, Bool.false_eq_true, if_neg,
            not_false_iff, hin, if_pos, badgeInForest, badgeInDom, Bool.or_eq_true]
          exact Or.inl (badgeInForest_insertAfter_new children eid bid v hin)
        · have h2 : elemInForest ds eid = true := by
            simp [elemInForest, elemInDom, heq, hin] at h
            exact h
          simp only [insertAfterForest, heq, hin, Bool.false_eq_true, if_neg,
            not_false_iff, badgeInForest, badgeInDom, Bool.or_eq_true]
          exact Or.inr (badgeInForest_insertAfter_new ds eid bid v h2)
    | badge b3 c =>
      have h2 : elemInForest ds eid = true := by
        simp [elemInForest, elemInDom] at h
        exact h
      simp only [insertAfterForest, badgeInForest, badgeInDom, Bool.or_eq_true]
      exact Or.inr (badgeInForest_insertAfter_new ds eid bid v h2)

/-- One injection step preserves the injection invariant. -/
theorem injectStep_inv (st : PState) (c : Nat × String) (keys : List Nat)
    (h : InjectInv st keys) (hc : c.1 ∈ keys) : InjectInv (injectStep st c) keys := by
  obtain ⟨h1, h2, h3, h4⟩ := h
  unfold injectStep
  split
  · exact ⟨h1, h2, h3, h4⟩
  split
  · exact ⟨h1, h2, h3, h4⟩
  rename_i helem0
  have helem : elemInForest st.dom c.1 = true := by
    simpa using helem0
  split
  · -- a badge was found
    split
    · exact ⟨h1, h2, h3, h4⟩
    · refine ⟨?_, h2, h3, ?_⟩
      · simp [badgeCount_setDhfForest, badgeCount_setBadgeTextForest, h1]
      · intro p hp
        rw [badgeInForest_setDhfForest, badgeInForest_setBadgeTextForest]
        exact h4 p hp
  · -- no badge found: the insert path
    rename_i hfind
    split
    · exact ⟨h1, h2, h3, h4⟩
    dsimp only
    split
    · exact ⟨h1, h2, h3, h4⟩
    split
    · exact ⟨h1, h2, h3, h4⟩
    have hnotin : c.1 ∉ st.badges.map Prod.fst := by
      intro hin
      simp only [List.mem_map] at hin
      obtain ⟨p, hp, hpe⟩ := hin
      have hsome : (st.badges.find? (fun p => p.1 == c.1)).isSome := by
        rw [List.find?_isSome]
        exact ⟨p, hp, by simp [hpe]⟩
      obtain ⟨p2, hp2⟩ := Option.isSome_iff_exists.mp hsome
      have hp2mem := List.mem_of_find?_eq_some hp2
      have hbid : badgeInForest st.dom p2.2 = true := h4 p2 hp2mem
      rw [findExistingBadge, hp2] at hfind
      simp [hbid] at hfind
    refine ⟨?_, ?_, ?_, ?_⟩
    · simp only [List.length_cons]
      rw [badgeCount_insertAfterForest st.dom c.1 _ helem]
      simp [badgeCount, h1]
    · simp only [List.map_cons, List.nodup_cons]
      exact ⟨hnotin, h2⟩
    · intro k hk
      simp only [List.map_cons, List.mem_cons] at hk
      rcases hk with hk | hk
      · rw [hk]; exact hc
      · exact h3 k hk
    · intro p hp
      simp only [List.mem_cons] at hp
      rcases hp with hp | hp
      · rw [hp]
        exact badgeInForest_insertAfter_new st.dom c.1 st.fresh c.2 helem
      · exact badgeInForest_insertAfterForest st.dom c.1 _ p.2 (h4 p hp)

/-- The injection fold preserves the invariant when every candidate key is
allowed. -/
theorem injectFold_inv (cands : List (Nat × String)) (keys : List Nat)
    (hk : ∀ c ∈ cands, c.1 ∈ keys) :
    ∀ st, InjectInv st keys → InjectInv (cands.foldl injectStep st) keys := by
  induction cands with
  | nil => intro st h; simpa
  | cons c t ih =>
    intro st h
    simp only [List.foldl_cons]
    exact ih (fun x hx => hk x (List.mem_cons_of_mem _ hx)) _
      (injectStep_inv st c keys h (hk c (List.mem_cons_self _ _)))

/-- A full side-by-side pass establishes the injection invariant for the
candidate keys, from any starting state. -/
theorem passSideBySide_inv (cands : List (Nat × String)) (st : PState) :
    InjectInv (passSideBySide cands st) (cands.map Prod.fst) := by
  unfold passSideBySide injectBadgesSideBySide
  apply injectFold_inv cands (cands.map Prod.fst)
    (fun c hc => List.mem_map_of_mem _ hc)
  refine ⟨?_, by simp [removeBadgesState], by simp [removeBadgesState],
    by simp [removeBadgesState]⟩
  simp [removeBadgesState, removeBadges_badgeCount]

/-- C5, counterexample: two sibling price elements, both qualifying
candidates of the pass (element 1 carries class `price`, element 2 id
`price2`; the class selector is scanned first, so the candidate order is
element 1, then element 2).  Element 1's badge is inserted directly after
it and therefore sits in element 2's following-sibling chain, so
`findExistingBadge` reports it for element 2, whose
`data-hours-formatted` already equals the formatted text, and element 2 is
skipped.  After running the pipeline twice there is exactly one badge in
the document for two qualifying elements — not one badge per element. -/
theorem passSideBySide_c5_counterexample :
    badgeCountList (passSideBySide c5Cands
      (passSideBySide c5Cands ⟨c5Forest, [], 0⟩)).dom = 1 ∧
    ((passSideBySide c5Cands
      (passSideBySide c5Cands ⟨c5Forest, [], 0⟩)).badges.map Prod.fst) = [1] ∧
    ((passSideBySide c5Cands
      (passSideBySide c5Cands ⟨c5Forest, [], 0⟩)).badges.map Prod.fst).contains 2 =
      false := by
  decide

/-- C5 (amended): running the full pipeline twice in side-by-side mode
never duplicates badges: each pass removes all existing badges and then
inserts at most one badge per qualifying element, so after the second pass
the number of badge nodes equals the number of tracked badges, the tracked
map has at most one badge per element, and every tracked element is a
qualifying candidate.  A qualifying element can, however, end up with no
badge of its own when another candidate's badge is discoverable among its
following siblings or in a shared price container. -/
theorem passSideBySide_c5_amended (f : DomList) (cands : List (Nat × String)) :
    badgeCountList (passSideBySide cands (passSideBySide cands ⟨f, [], 0⟩)).dom =
      (passSideBySide cands (passSideBySide cands ⟨f, [], 0⟩)).badges.length ∧
    ((passSideBySide cands
      (passSideBySide cands ⟨f, [], 0⟩)).badges.map Prod.fst).Nodup ∧
    ((passSideBySide cands
      (passSideBySide cands ⟨f, [], 0⟩)).badges.map Prod.fst).all
        (fun e => (cands.map Prod.fst).contains e) = true := by
  obtain ⟨h1, h2, h3, _⟩ := passSideBySide_inv cands (passSideBySide cands ⟨f, [], 0⟩)
  refine ⟨h1, h2, ?_⟩
  rw [List.all_eq_true]
  intro e he
  exact List.elem_eq_true_of_mem (h3 e he)

end PriceToHours
